import Mathlib

/-
Verification development for the hibiki-rs streaming generation driver
(src/hibiki-rs/src/gen.rs).  The pure control flow of the file is embedded
shallowly: PCM samples are rationals, tensors are lists, strings are lists
of bytes (naturals below 256), and the external stateful collaborators
(the mimi codec, the moshi multistream state and its seeded samplers, the
sentencepiece tokenizer) are explicit state-transition functions threaded
through the loop.
-/

namespace Hibiki

/-! ## Incremental text detokenization (gen.rs, fn text, lines 23-44)

Rust strings are modelled as lists of bytes; decode_piece_ids is an
abstract function returning an optional byte string (None models a decode
error, matched by the .ok() calls in the source).  The byte-range slice
ids[prev_ids.len()..] panics in Rust when the start index is not a UTF-8
character boundary; the panic is modelled by Except.error. -/

/-- A byte index is a character boundary of a UTF-8 byte string exactly when
it is 0, the length, or points at a byte that is not a continuation byte
(mirrors the Rust standard library check used by string slicing). -/
def isCharBoundary (b : List ℕ) (i : ℕ) : Bool :=
  if i = 0 then true
  else if i = b.length then true
  else if i < b.length then decide (b.getD i 0 < 128) || decide (192 ≤ b.getD i 0)
  else false

/-- Rust byte slice s[i..].to_string(): returns the suffix when i is a char
boundary and panics (Except.error) otherwise. -/
def sliceFrom (b : List ℕ) (i : ℕ) : Except String (List ℕ) :=
  if isCharBoundary b i then Except.ok (b.drop i) else
    Except.error "byte index is not a char boundary"

/-- Embedding of fn text (gen.rs lines 23-44).  dp is the decode_piece_ids
collaborator; the Except layer carries the potential slicing panic. -/
def text (dp : List ℕ → Option (List ℕ))
    (prev_text_token text_token text_start_token : ℕ) :
    Except String (Option (List ℕ)) :=
  if prev_text_token = text_start_token then
    Except.ok (dp [text_token])
  else
    match dp [prev_text_token], dp [prev_text_token, text_token] with
    | some prev_ids, some ids =>
      if prev_ids.length < ids.length then
        match sliceFrom ids prev_ids.length with
        | Except.ok s => Except.ok (some s)
        | Except.error e => Except.error e
      else Except.ok (some [])
    | some _, none => Except.ok none
    | none, _ => Except.ok none

/-! ## Conditioning (gen.rs lines 88-104) -/

/-- Embedding of the condition construction (gen.rs lines 88-102): when a
condition provider exists, the lut is consulted for the positive anchor, and
additionally for the negative anchor with the two tensors concatenated along
the batch axis whenever a cfg alpha was requested (the source tests
args.cfg_alpha.is_some(), not whether alpha differs from 1).  Tensors are
lists of rows; Tensor::cat along dim 0 is list append. -/
def conditionsOf (cp : Option (String → String → List (List ℚ)))
    (cfg_alpha_req : Option ℚ) : Option (List (List ℚ)) :=
  match cp with
  | none => none
  | some lut =>
    some (if cfg_alpha_req.isSome then
        lut "description" "very_good" ++ lut "description" "very_bad"
      else lut "description" "very_good")

/-- Embedding of gen.rs line 104: the alpha handed to the generation state is
None when the requested alpha equals 1, so no blend is applied there. -/
def effectiveCfgAlpha (cfg_alpha_req : Option ℚ) : Option ℚ :=
  if cfg_alpha_req = some 1 then none else cfg_alpha_req

/-- Modelled from the spec: the CFG logit blend performed inside the external
moshi multistream stepper (not part of src/), per the spec formula
logits = logits_negative + alpha * (logits_positive - logits_negative). -/
def cfgBlend (alpha : ℚ) (pos neg : List ℚ) : List ℚ :=
  List.zipWith (fun p n => n + alpha * (p - n)) pos neg

/-! ## Input padding, resampling and frame slicing (gen.rs lines 52-63, 103, 134-136) -/

/-- Modelled from the spec: the audio_io resample collaborator (not part of
src/) converting PCM from a source rate to a destination rate; the spec only
states that the stream is resampled to the 24 kHz target, so a minimal
nearest-neighbour rate converter is used. -/
def resample (pcm : List ℚ) (src_rate dst_rate : ℕ) : List ℚ :=
  (List.range (pcm.length * dst_rate / src_rate)).map
    (fun i => pcm.getD (i * src_rate / dst_rate) 0)

/-- Embedding of gen.rs lines 52-63: 12000 zero samples are appended to the
decoded PCM first, and the padded stream is then resampled when the source
sample rate differs from 24000. -/
def paddedStream (pcm : List ℚ) (sample_rate : ℕ) : List ℚ :=
  let padded := pcm ++ List.replicate 12000 0
  if sample_rate ≠ 24000 then resample padded sample_rate 24000 else padded

/-- Embedding of gen.rs line 103: max_steps = (in_pcm_len / 1920).min(2500). -/
def maxSteps (padded_len : ℕ) : ℕ :=
  min (padded_len / 1920) 2500

/-- Embedding of the frame slices taken by the loop (gen.rs lines 134-136):
frame i is the sample range i*1920 .. (i+1)*1920 of the padded stream, for
i ranging over 0..max_steps. -/
def framesOf (pcm : List ℚ) : List (List ℚ) :=
  (List.range (maxSteps pcm.length)).map
    (fun i => (pcm.drop (i * 1920)).take 1920)

/-- The spec-side description of the stream content before the tail pad: the
input samples at the 24 kHz target rate, resampled only when the source rate
differs (written from the spec wording for the refinement comparison in C8). -/
def targetRateContent (pcm : List ℚ) (sample_rate : ℕ) : List ℚ :=
  if sample_rate = 24000 then pcm else resample pcm sample_rate 24000

/-! ## The generation loop (gen.rs lines 78-183)

The external collaborators are gathered into an environment of explicit
deterministic state-transition functions:
- encode_step / decode_step model the stateful mimi codec (an encode call
  may yield no code frame; a code frame is a list of per-sub-step code
  vectors, one entry per codebook);
- initLm and lmStep model the moshi multistream state together with its two
  seeded top-k samplers. Modelled from the spec: the moshi crate is not part
  of src/; per the spec the samplers are deterministic per seed, so the
  whole stepper is a function of its state, the previous text token, the
  input codes and the conditions, returning the next state, the sampled text
  token and the generated audio-token vector of that sub-step;
- dp models sentencepiece decode_piece_ids (None is a decode error). -/

/-- Environment of external collaborators for one run. -/
structure GenEnv (σm σl : Type) where
  encode_step : σm → List ℚ → σm × Option (List (List ℕ))
  decode_step : σm → List ℕ → σm × Option (List ℚ)
  initLm : ℕ → Option ℚ → σl
  lmStep : σl → ℕ → List ℕ → Option (List (List ℚ)) → σl × ℕ × List ℕ
  dp : List ℕ → Option (List ℕ)
  condition_provider : Option (String → String → List (List ℚ))
  mimi0 : σm
  text_start_token : ℕ
  gac : ℕ

/-- The run uses acoustic_delay = 2 (gen.rs line 107). -/
def acousticDelay : ℕ := 2

/-- Modelled from the spec: the moshi lm_generate_multistream State (not part
of src/), reduced to what the loop observes: the stepper state and the
ordered list of audio-token vectors generated so far, one per sub-step. -/
structure MState (σl : Type) where
  lm : σl
  gen : List (List ℕ)

/-- Modelled from the spec: one step_ call of the external State advances the
stepper and records the audio-token vector generated at this sub-step;
it returns the sampled text token. -/
def MState.stepM {σm σl : Type} (E : GenEnv σm σl) (s : MState σl)
    (prev : ℕ) (codes : List ℕ) (conds : Option (List (List ℚ))) :
    MState σl × ℕ :=
  let r := E.lmStep s.lm prev codes conds
  (⟨r.1, s.gen ++ [r.2.2]⟩, r.2.1)

/-- Modelled from the spec: last_audio_tokens of the external State returns
nothing during the initial delay ramp (the first acousticDelay sub-steps)
and the vector generated acousticDelay sub-steps earlier afterwards. -/
def lastAudioTokens {σl : Type} (s : MState σl) : Option (List ℕ) :=
  if s.gen.length ≤ acousticDelay then none
  else some (s.gen.getD (s.gen.length - 1 - acousticDelay) [])

/-- Loop accumulator: the mutable locals of the run loop
(gen.rs lines 127-131) plus the codec and stepper states. -/
structure Acc (σm σl : Type) where
  mimi : σm
  st : MState σl
  prev_text : ℕ
  out_pcms : List (List ℚ)
  text_tokens : List ℕ
  printed : List (List ℕ)
  nsteps : ℕ

/-- The streamed fragment handling (gen.rs lines 147-153): a fragment is
printed only when fn text returns Some; the Except.error case is a process
panic and records nothing in this pure model. -/
def pushFragment (dp : List ℕ → Option (List ℕ)) (printed : List (List ℕ))
    (prev tt start : ℕ) : List (List ℕ) :=
  match text dp prev tt start with
  | Except.ok (some s) => printed ++ [s]
  | Except.ok none => printed
  | Except.error _ => printed

/-- Embedding of one sub-step of the inner loop (gen.rs lines 140-166):
advance the stepper with the previous text token and this sub-step codes;
if the returned token is neither eop (0) nor pad (3), append it to the token
history and stream its fragment; update the previous token; poll the delayed
audio-token query and, when a vector is available, decode its first gac
codebooks and append the resulting PCM chunk when the codec produces one. -/
def subStep {σm σl : Type} (E : GenEnv σm σl) (conds : Option (List (List ℚ)))
    (acc : Acc σm σl) (codes : List ℕ) : Acc σm σl :=
  let p := MState.stepM E acc.st acc.prev_text codes conds
  let st1 := p.1
  let tt := p.2
  let tks := if tt ≠ 0 ∧ tt ≠ 3 then acc.text_tokens ++ [tt] else acc.text_tokens
  let prn := if tt ≠ 0 ∧ tt ≠ 3 then
      pushFragment E.dp acc.printed acc.prev_text tt E.text_start_token
    else acc.printed
  match lastAudioTokens st1 with
  | none => ⟨acc.mimi, st1, tt, acc.out_pcms, tks, prn, acc.nsteps⟩
  | some atoks =>
    let q := E.decode_step acc.mimi (atoks.take E.gac)
    match q.2 with
    | none => ⟨q.1, st1, tt, acc.out_pcms, tks, prn, acc.nsteps⟩
    | some opcm => ⟨q.1, st1, tt, acc.out_pcms ++ [opcm], tks, prn, acc.nsteps⟩

/-- Embedding of one frame iteration (gen.rs lines 134-167): count the step,
encode the frame, and when a code frame is returned iterate its sub-steps in
order. -/
def processFrame {σm σl : Type} (E : GenEnv σm σl)
    (conds : Option (List (List ℚ))) (acc : Acc σm σl) (frame : List ℚ) :
    Acc σm σl :=
  let acc1 : Acc σm σl := { acc with nsteps := acc.nsteps + 1 }
  let e := E.encode_step acc1.mimi frame
  let acc2 : Acc σm σl := { acc1 with mimi := e.1 }
  match e.2 with
  | none => acc2
  | some codeFrame => codeFrame.foldl (subStep E conds) acc2

/-- Embedding of the run tail (gen.rs lines 175-181): the one-shot decode of
the accumulated tokens aborts the run on a decode error; Tensor::cat of the
accumulated chunks fails on an empty list (candle rejects an empty concat);
on success the concatenation along the time axis is the joined sample list,
which is then written as the wav output. -/
def finalResult (dp : List ℕ → Option (List ℕ)) (tks : List ℕ)
    (chunks : List (List ℚ)) : Except String (List ℚ) :=
  match dp tks with
  | none => Except.error "decode error"
  | some _ =>
    match chunks with
    | [] => Except.error "cannot concat empty slice"
    | _ => Except.ok chunks.flatten

/-- Whether an Except run tail succeeded. -/
def isOkE (e : Except String (List ℚ)) : Bool :=
  match e with
  | Except.ok _ => true
  | Except.error _ => false

/-- Observable outcome of one run. -/
structure RunResult where
  textTokens : List ℕ
  printed : List (List ℕ)
  transcript : Option (List ℕ)
  outPcms : List (List ℚ)
  nsteps : ℕ
  substeps : ℕ
  result : Except String (List ℚ)
  wavWritten : Bool

/-- Embedding of pub fn run (gen.rs lines 46-183), with weight loading and
file writing abstracted into the environment and the result record: pad and
resample the input, build the conditions from the requested alpha, null the
blend alpha when it equals 1, initialise the state from the seed, fold the
frame loop over the frame slices, then decode the transcript and concatenate
the output PCM. -/
def runGen {σm σl : Type} (E : GenEnv σm σl) (seed : ℕ)
    (cfg_alpha_req : Option ℚ) (pcm : List ℚ) (sample_rate : ℕ) : RunResult :=
  let inPcm := paddedStream pcm sample_rate
  let conds := conditionsOf E.condition_provider cfg_alpha_req
  let cfgAlpha := effectiveCfgAlpha cfg_alpha_req
  let st0 : MState σl := ⟨E.initLm seed cfgAlpha, []⟩
  let acc0 : Acc σm σl := ⟨E.mimi0, st0, E.text_start_token, [], [], [], 0⟩
  let accF := (framesOf inPcm).foldl (processFrame E conds) acc0
  { textTokens := accF.text_tokens
    printed := accF.printed
    transcript := E.dp accF.text_tokens
    outPcms := accF.out_pcms
    nsteps := accF.nsteps
    substeps := accF.st.gen.length
    result := finalResult E.dp accF.text_tokens accF.out_pcms
    wavWritten := isOkE (finalResult E.dp accF.text_tokens accF.out_pcms) }

/-! ## Theorems -/

/-- Claim C5: for every pair (prev_token, text_token) fed to the incremental
detokenizer, the start branch returns decode_piece of the single new token,
and the non-start branch returns the suffix of the two-token decode beyond
the length of the one-token decode when the former is strictly longer (and
the byte index is a character boundary, so that the slice is defined), and
the empty string otherwise. -/
theorem C5_detok_suffix_law (dp : List ℕ → Option (List ℕ))
    (prev t start : ℕ) (a b : List ℕ)
    (hne : prev ≠ start) (ha : dp [prev] = some a)
    (hb : dp [prev, t] = some b) :
    (∀ p s, p = s → text dp p t s = Except.ok (dp [t])) ∧
    (a.length < b.length → isCharBoundary b a.length = true →
      text dp prev t start = Except.ok (some (b.drop a.length))) ∧
    (¬ a.length < b.length → text dp prev t start = Except.ok (some [])) := by
  refine ⟨fun p s hps => by simp [text, hps], fun hl hcb => ?_, fun hl => ?_⟩
  · simp [text, hne, ha, hb, hl, sliceFrom, hcb]
  · simp [text, hne, ha, hb, hl]

/-- A concrete tokenizer table for the C5 witness. -/
def dpC5 : List ℕ → Option (List ℕ) := fun l =>
  if l = [9] then some [104] else if l = [9, 10] then some [104, 105] else none

/-- Witness for C5 at a concrete tokenizer, token pair (9, 10) and start
token 0. -/
theorem C5_detok_suffix_law_witness :
    text dpC5 9 10 0 = Except.ok (some [105]) :=
  (C5_detok_suffix_law dpC5 9 10 0 [104] [104, 105] (by decide) (by decide)
      (by decide)).2.1 (by decide) (by decide)

/-- Claim C9: in the non-start branch with both decodes available and the
two-token decode strictly longer, the incremental fragment computation
succeeds exactly when the byte index given by the length of the one-token
decode is a UTF-8 character boundary of the two-token decode, and panics
(models Except.error) otherwise: totality depends on that boundary
condition. -/
theorem C9_slice_boundary_safety (dp : List ℕ → Option (List ℕ))
    (prev t start : ℕ) (a b : List ℕ)
    (hne : prev ≠ start) (ha : dp [prev] = some a)
    (hb : dp [prev, t] = some b) (hl : a.length < b.length) :
    text dp prev t start =
      (if isCharBoundary b a.length then Except.ok (some (b.drop a.length))
       else Except.error "byte index is not a char boundary") := by
  by_cases hcb : isCharBoundary b a.length <;>
    simp [text, hne, ha, hb, hl, sliceFrom, hcb]

/-- A concrete tokenizer table for the C9 witness: the one-token decode has
length 1, and byte 1 of the two-token decode is a UTF-8 continuation byte,
so the slice start is not a character boundary. -/
def dpC9 : List ℕ → Option (List ℕ) := fun l =>
  if l = [7] then some [195] else if l = [7, 8] then some [195, 169] else none

/-- Witness for C9: at the concrete tokenizer dpC9 the fragment computation
panics on the non-boundary byte index. -/
theorem C9_slice_boundary_safety_witness :
    text dpC9 7 8 5 = Except.error "byte index is not a char boundary" :=
  (C9_slice_boundary_safety dpC9 7 8 5 [195] [195, 169] (by decide) (by decide)
      (by decide) (by decide)).trans (if_neg (by decide))

/-- A concrete condition lut for the C3 theorems. -/
def cpC3 : String → String → List (List ℚ) := fun _ d =>
  if d = "very_good" then [[1]] else [[2]]

/-- Claim C3 counterexample: when cfg_alpha = 1 is requested, the condition
tensor built by the run is the batch-doubled positive-plus-negative tensor,
not the single positive tensor used when no alpha is requested. -/
theorem C3_counterexample :
    conditionsOf (some cpC3) (some 1) = some [[(1 : ℚ)], [2]] ∧
    conditionsOf (some cpC3) (some 1) ≠ conditionsOf (some cpC3) none := by
  constructor
  · simp [conditionsOf, cpC3]
  · simp [conditionsOf, cpC3]

/-- Claim C3 amended: when cfg_alpha = 1 is requested, the alpha handed to
the generation state is None, so no CFG blend is applied there (and the
spec blend at alpha = 1 is the identity on the positive logits); but the
condition tensor is batch-doubled whenever any alpha is requested, including
alpha = 1; the single positive tensor is used only when no alpha is
requested. -/
theorem C3_cfg_alpha_one (lut : String → String → List (List ℚ))
    (alphaReq : Option ℚ) (hs : alphaReq.isSome = true)
    (pos neg : List ℚ) (hl : pos.length = neg.length) :
    conditionsOf (some lut) alphaReq =
      some (lut "description" "very_good" ++ lut "description" "very_bad") ∧
    effectiveCfgAlpha (some 1) = none ∧
    conditionsOf (some lut) none = some (lut "description" "very_good") ∧
    cfgBlend 1 pos neg = pos := by
  refine ⟨by simp [conditionsOf, hs], by simp [effectiveCfgAlpha],
    by simp [conditionsOf], ?_⟩
  induction pos generalizing neg with
  | nil => simp [cfgBlend]
  | cons p ps ih =>
    cases neg with
    | nil => simp at hl
    | cons n ns =>
      have hl2 : ps.length = ns.length := by simpa using hl
      have hih := ih ns hl2
      simp only [cfgBlend, List.zipWith_cons_cons] at hih ⊢
      have hp : n + 1 * (p - n) = p := by ring
      rw [hih, hp]

/-- Witness for C3 amended at the concrete lut cpC3, requested alpha 1 and
one-element logit vectors. -/
theorem C3_cfg_alpha_one_witness :
    conditionsOf (some cpC3) (some 1) =
      some (cpC3 "description" "very_good" ++ cpC3 "description" "very_bad") ∧
    effectiveCfgAlpha (some 1) = none ∧
    conditionsOf (some cpC3) none = some (cpC3 "description" "very_good") ∧
    cfgBlend 1 [(3 : ℚ)] [(7 : ℚ)] = [(3 : ℚ)] :=
  C3_cfg_alpha_one cpC3 (some 1) (by decide) [(3 : ℚ)] [(7 : ℚ)] (by decide)

/-- Claim C4 counterexample: a padded input of length 1920 * 2501 yields
2500 frames because of the 2500-step cap, not floor(L / 1920) = 2501. -/
theorem C4_counterexample :
    (framesOf (List.replicate (1920 * 2501) (0 : ℚ))).length ≠
      (List.replicate (1920 * 2501) (0 : ℚ)).length / 1920 := by
  simp only [framesOf, maxSteps, List.length_map, List.length_range,
    List.length_replicate]
  norm_num

/-- Claim C4 amended: for every padded input PCM stream of length L, the
frame loop consumes exactly min(floor(L / 1920), 2500) frames; each frame is
exactly 1920 consecutive samples taken in order, and no frame slice reads a
sample at an index at or beyond L. -/
theorem C4_frame_slicing (pcm : List ℚ) :
    (framesOf pcm).length = min (pcm.length / 1920) 2500 ∧
    ∀ i, i < (framesOf pcm).length →
      ((framesOf pcm).getD i []).length = 1920 ∧
      (i + 1) * 1920 ≤ pcm.length ∧
      ∀ j, j < 1920 →
        ((framesOf pcm).getD i []).getD j 0 = pcm.getD (i * 1920 + j) 0 := by
  have hlen : (framesOf pcm).length = maxSteps pcm.length := by
    simp [framesOf]
  refine ⟨by simpa [maxSteps] using hlen, fun i hi => ?_⟩
  rw [hlen] at hi
  have hi2 : i + 1 ≤ pcm.length / 1920 := by
    have := hi
    unfold maxSteps at this
    omega
  have hbound : (i + 1) * 1920 ≤ pcm.length :=
    le_trans (Nat.mul_le_mul_right _ hi2) (Nat.div_mul_le_self _ _)
  have hframe : (framesOf pcm).getD i [] = (pcm.drop (i * 1920)).take 1920 := by
    unfold framesOf
    rw [List.getD_eq_getElem?_getD, List.getElem?_map, List.getElem?_range hi]
    rfl
  refine ⟨?_, hbound, fun j hj => ?_⟩
  · rw [hframe, List.length_take, List.length_drop]
    omega
  · rw [hframe, List.getD_eq_getElem?_getD, List.getD_eq_getElem?_getD,
      List.getElem?_take_of_lt hj, List.getElem?_drop]

/-- Witness for C4 amended at a one-frame input of 1920 zero samples. -/
theorem C4_frame_slicing_witness :
    (framesOf (List.replicate 1920 (0 : ℚ))).length =
      min ((List.replicate 1920 (0 : ℚ)).length / 1920) 2500 ∧
    ((framesOf (List.replicate 1920 (0 : ℚ))).getD 0 []).length = 1920 ∧
    ((framesOf (List.replicate 1920 (0 : ℚ))).getD 0 []).getD 0 0 =
      (List.replicate 1920 (0 : ℚ)).getD 0 0 := by
  have h := C4_frame_slicing (List.replicate 1920 (0 : ℚ))
  have h0 : 0 < (framesOf (List.replicate 1920 (0 : ℚ))).length := by
    rw [h.1]
    norm_num [List.length_replicate]
  exact ⟨h.1, (h.2 0 h0).1, (h.2 0 h0).2.2 0 (by norm_num)⟩

/-- Claim C8 counterexample: for the 48 kHz input [1, 2, 3], the sliced
stream is the resample of the already-padded stream, and its second sample
is the input sample 3, not a pad zero, so the stream is not the target-rate
content followed by a zero pad of any length. -/
theorem C8_counterexample :
    ¬ ∃ k : ℕ, paddedStream [1, 2, 3] 48000 =
        targetRateContent [1, 2, 3] 48000 ++ List.replicate k (0 : ℚ) := by
  rintro ⟨k, hk⟩
  have htc : targetRateContent [1, 2, 3] 48000 = [(1 : ℚ)] := by decide
  rw [htc] at hk
  have hps : paddedStream [1, 2, 3] 48000 =
      resample ([1, 2, 3] ++ List.replicate 12000 0) 48000 24000 := by
    simp only [paddedStream, ne_eq]
    norm_num
  have hlen2 : (([1, 2, 3] : List ℚ) ++ List.replicate 12000 0).length = 12003 := by
    simp only [List.length_append, List.length_cons, List.length_nil,
      List.length_replicate]
  have hL : (paddedStream [1, 2, 3] 48000).getD 1 (0 : ℚ) = 3 := by
    rw [hps]
    unfold resample
    rw [List.getD_eq_getElem?_getD, List.getElem?_map, hlen2,
      List.getElem?_range (by norm_num)]
    simp only [Option.map_some', Option.getD_some]
    have harg : (1 * 48000 / 24000 : ℕ) = 2 := by norm_num
    rw [harg]
    rfl
  rw [hk] at hL
  have hR : ([(1 : ℚ)] ++ List.replicate k (0 : ℚ)).getD 1 (0 : ℚ) = 0 := by
    rcases k with _ | k2 <;> rfl
  rw [hR] at hL
  exact absurd hL (by norm_num)

/-- Claim C8 amended: the fixed 12000-sample silence pad is appended to the
source-rate content before any resampling, so the stream sliced by the frame
loop is the resample of the padded stream when the source rate differs from
24 kHz; only when the source rate is already 24 kHz is the stream exactly
the target-rate content followed by the 12000 zero samples. -/
theorem C8_pad_then_resample (pcm : List ℚ) (sr : ℕ) (h : sr ≠ 24000) :
    paddedStream pcm sr = resample (pcm ++ List.replicate 12000 0) sr 24000 ∧
    paddedStream pcm 24000 = targetRateContent pcm 24000 ++ List.replicate 12000 0 := by
  constructor
  · simp only [paddedStream, if_pos h]
  · simp only [paddedStream, targetRateContent, ne_eq]
    norm_num

/-- Witness for C8 amended at the concrete input [5] with source rate
48000. -/
theorem C8_pad_then_resample_witness :
    paddedStream [(5 : ℚ)] 48000 =
      resample ([(5 : ℚ)] ++ List.replicate 12000 0) 48000 24000 ∧
    paddedStream [(5 : ℚ)] 24000 =
      targetRateContent [(5 : ℚ)] 24000 ++ List.replicate 12000 0 :=
  C8_pad_then_resample [(5 : ℚ)] 48000 (by norm_num)

/-! ## Loop invariants -/

/-- A foldl preserves any invariant preserved by its step function. -/
theorem foldlInvariant {α β : Type _} (P : α → Prop) (f : α → β → α)
    (hstep : ∀ a b, P a → P (f a b)) :
    ∀ (l : List β) (a : α), P a → P (l.foldl f a) := by
  intro l
  induction l with
  | nil => intro a ha; exact ha
  | cons x xs ih => intro a ha; exact ih _ (hstep a x ha)

/-- A sub-step does not touch the frame counter. -/
theorem subStep_nsteps {σm σl : Type} (E : GenEnv σm σl)
    (conds : Option (List (List ℚ))) (acc : Acc σm σl) (codes : List ℕ) :
    (subStep E conds acc codes).nsteps = acc.nsteps := by
  unfold subStep MState.stepM
  dsimp only
  split
  · rfl
  · split <;> rfl

/-- The token history after a sub-step: the sampled token is appended exactly
when it is neither 0 nor 3. -/
theorem subStep_text_tokens {σm σl : Type} (E : GenEnv σm σl)
    (conds : Option (List (List ℚ))) (acc : Acc σm σl) (codes : List ℕ) :
    (subStep E conds acc codes).text_tokens =
      (if (E.lmStep acc.st.lm acc.prev_text codes conds).2.1 ≠ 0 ∧
          (E.lmStep acc.st.lm acc.prev_text codes conds).2.1 ≠ 3 then
        acc.text_tokens ++ [(E.lmStep acc.st.lm acc.prev_text codes conds).2.1]
      else acc.text_tokens) := by
  unfold subStep MState.stepM
  dsimp only
  split
  · rfl
  · split <;> rfl

/-- Appending an element distinct from a keeps a out of the list. -/
theorem not_mem_append_singleton {a t : ℕ} {l : List ℕ} (h : a ∉ l)
    (hne : t ≠ a) : a ∉ l ++ [t] := by
  simp only [List.mem_append, List.mem_singleton]
  rintro (hm | hEq)
  · exact h hm
  · exact hne hEq.symm

/-- A sub-step keeps the special tokens 0 and 3 out of the token history. -/
theorem subStep_tokenInv {σm σl : Type} (E : GenEnv σm σl)
    (conds : Option (List (List ℚ))) (acc : Acc σm σl) (codes : List ℕ)
    (h0 : (0 : ℕ) ∉ acc.text_tokens) (h3 : (3 : ℕ) ∉ acc.text_tokens) :
    (0 : ℕ) ∉ (subStep E conds acc codes).text_tokens ∧
    (3 : ℕ) ∉ (subStep E conds acc codes).text_tokens := by
  rw [subStep_text_tokens]
  split
  · rename_i hcond
    exact ⟨not_mem_append_singleton h0 hcond.1, not_mem_append_singleton h3 hcond.2⟩
  · exact ⟨h0, h3⟩

/-- During the delay ramp the audio-token query yields nothing. -/
theorem lastAudioTokens_none {σl : Type} (s : MState σl)
    (h : s.gen.length ≤ acousticDelay) : lastAudioTokens s = none := by
  rw [lastAudioTokens, if_pos h]

/-- The audio-token query yields a vector only past the delay ramp. -/
theorem lastAudioTokens_isSome_gt {σl : Type} (s : MState σl) (x : List ℕ)
    (h : lastAudioTokens s = some x) : acousticDelay < s.gen.length := by
  by_contra hc
  push_neg at hc
  rw [lastAudioTokens_none s hc] at h
  exact Option.noConfusion h

/-- A sub-step preserves the chunk-count bound: the number of accumulated PCM
chunks stays at most the number of executed sub-steps minus the acoustic
delay. -/
theorem subStep_chunkInv {σm σl : Type} (E : GenEnv σm σl)
    (conds : Option (List (List ℚ))) (acc : Acc σm σl) (codes : List ℕ)
    (h : acc.out_pcms.length ≤ acc.st.gen.length - acousticDelay) :
    (subStep E conds acc codes).out_pcms.length ≤
      (subStep E conds acc codes).st.gen.length - acousticDelay := by
  unfold subStep MState.stepM
  dsimp only
  split
  · dsimp only
    simp only [List.length_append, List.length_cons, List.length_nil]
    have hd : acousticDelay = 2 := rfl
    omega
  · rename_i atoks heq
    have hgt := lastAudioTokens_isSome_gt _ _ heq
    simp only [List.length_append, List.length_cons, List.length_nil] at hgt
    split <;> dsimp only <;>
      simp only [List.length_append, List.length_cons, List.length_nil] <;>
      have hd : acousticDelay = 2 := rfl <;> omega

/-- A frame iteration increments the frame counter by exactly one. -/
theorem processFrame_nsteps {σm σl : Type} (E : GenEnv σm σl)
    (conds : Option (List (List ℚ))) (acc : Acc σm σl) (frame : List ℚ) :
    (processFrame E conds acc frame).nsteps = acc.nsteps + 1 := by
  unfold processFrame
  dsimp only
  split
  · rfl
  · refine foldlInvariant (fun a => a.nsteps = acc.nsteps + 1) (subStep E conds)
      (fun a b hp => ?_) _ _ ?_
    · show (subStep E conds a b).nsteps = acc.nsteps + 1
      rw [subStep_nsteps]
      exact hp
    · exact rfl

/-- The frame loop executes one iteration per frame. -/
theorem foldl_processFrame_nsteps {σm σl : Type} (E : GenEnv σm σl)
    (conds : Option (List (List ℚ))) :
    ∀ (l : List (List ℚ)) (acc : Acc σm σl),
      (l.foldl (processFrame E conds) acc).nsteps = acc.nsteps + l.length := by
  intro l
  induction l with
  | nil => intro acc; simp
  | cons x xs ih =>
    intro acc
    rw [List.foldl_cons, ih, processFrame_nsteps]
    simp only [List.length_cons]
    omega

/-- A frame iteration keeps the special tokens 0 and 3 out of the token
history. -/
theorem processFrame_tokenInv {σm σl : Type} (E : GenEnv σm σl)
    (conds : Option (List (List ℚ))) (acc : Acc σm σl) (frame : List ℚ)
    (h0 : (0 : ℕ) ∉ acc.text_tokens) (h3 : (3 : ℕ) ∉ acc.text_tokens) :
    (0 : ℕ) ∉ (processFrame E conds acc frame).text_tokens ∧
    (3 : ℕ) ∉ (processFrame E conds acc frame).text_tokens := by
  unfold processFrame
  dsimp only
  split
  · exact ⟨h0, h3⟩
  · refine foldlInvariant
      (fun a => (0 : ℕ) ∉ a.text_tokens ∧ (3 : ℕ) ∉ a.text_tokens)
      (subStep E conds) (fun a b hp => subStep_tokenInv E conds a b hp.1 hp.2)
      _ _ ?_
    exact ⟨h0, h3⟩

/-- A frame iteration preserves the chunk-count bound. -/
theorem processFrame_chunkInv {σm σl : Type} (E : GenEnv σm σl)
    (conds : Option (List (List ℚ))) (acc : Acc σm σl) (frame : List ℚ)
    (h : acc.out_pcms.length ≤ acc.st.gen.length - acousticDelay) :
    (processFrame E conds acc frame).out_pcms.length ≤
      (processFrame E conds acc frame).st.gen.length - acousticDelay := by
  unfold processFrame
  dsimp only
  split
  · exact h
  · refine foldlInvariant
      (fun a => a.out_pcms.length ≤ a.st.gen.length - acousticDelay)
      (subStep E conds) (fun a b hp => subStep_chunkInv E conds a b hp)
      _ _ ?_
    exact h

/-- The run tail on an empty chunk list never succeeds: either the one-shot
decode fails first, or the empty concatenation is rejected. -/
theorem finalResult_nil (dp : List ℕ → Option (List ℕ)) (tks : List ℕ) :
    isOkE (finalResult dp tks []) = false ∧
    ∀ s, dp tks = some s →
      finalResult dp tks [] = Except.error "cannot concat empty slice" := by
  unfold finalResult isOkE
  cases hdp : dp tks with
  | none =>
    exact ⟨rfl, fun s hs => Option.noConfusion hs⟩
  | some v => exact ⟨rfl, fun s hs => rfl⟩

/-! ## Claims about whole runs -/

/-- Claim C1: two runs of the generation loop with the same input audio, the
same seed and the same configuration and collaborators produce bit-identical
outputs: the same accumulated text-token sequence, the same one-shot
transcript, the same streamed fragments and the same output PCM. -/
theorem C1_determinism {σm σl : Type} (E : GenEnv σm σl) (seed : ℕ)
    (alphaReq : Option ℚ) (pcm : List ℚ) (sr : ℕ) (r1 r2 : RunResult)
    (h1 : r1 = runGen E seed alphaReq pcm sr)
    (h2 : r2 = runGen E seed alphaReq pcm sr) :
    r1.textTokens = r2.textTokens ∧ r1.printed = r2.printed ∧
    r1.transcript = r2.transcript ∧ r1.outPcms = r2.outPcms ∧
    r1.result = r2.result := by
  subst h1
  subst h2
  exact ⟨rfl, rfl, rfl, rfl, rfl⟩

/-- Claim C6: text tokens 0 (eop) and 3 (pad) are never appended to the
accumulated token history, and the final transcript is the one-shot decode
of exactly that history, so the transcript derives from no such token. -/
theorem C6_special_token_exclusion {σm σl : Type} (E : GenEnv σm σl)
    (seed : ℕ) (alphaReq : Option ℚ) (pcm : List ℚ) (sr : ℕ) :
    (0 : ℕ) ∉ (runGen E seed alphaReq pcm sr).textTokens ∧
    (3 : ℕ) ∉ (runGen E seed alphaReq pcm sr).textTokens ∧
    (runGen E seed alphaReq pcm sr).transcript =
      E.dp (runGen E seed alphaReq pcm sr).textTokens := by
  have hinv := foldlInvariant
    (fun a : Acc σm σl => (0 : ℕ) ∉ a.text_tokens ∧ (3 : ℕ) ∉ a.text_tokens)
    (processFrame E (conditionsOf E.condition_provider alphaReq))
    (fun a b hp => processFrame_tokenInv E _ a b hp.1 hp.2)
    (framesOf (paddedStream pcm sr))
    ⟨E.mimi0, ⟨E.initLm seed (effectiveCfgAlpha alphaReq), []⟩,
      E.text_start_token, [], [], [], 0⟩
    ⟨List.not_mem_nil 0, List.not_mem_nil 3⟩
  exact ⟨hinv.1, hinv.2, rfl⟩

/-- Claim C7: the number of frame-loop iterations of a run equals
min(floor(padded_input_len / 1920), 2500), where padded_input_len is the
length of the padded, 24 kHz stream. -/
theorem C7_step_count {σm σl : Type} (E : GenEnv σm σl) (seed : ℕ)
    (alphaReq : Option ℚ) (pcm : List ℚ) (sr : ℕ) :
    (runGen E seed alphaReq pcm sr).nsteps =
      min ((paddedStream pcm sr).length / 1920) 2500 := by
  have h := foldl_processFrame_nsteps E (conditionsOf E.condition_provider alphaReq)
    (framesOf (paddedStream pcm sr))
    ⟨E.mimi0, ⟨E.initLm seed (effectiveCfgAlpha alphaReq), []⟩,
      E.text_start_token, [], [], [], 0⟩
  calc (runGen E seed alphaReq pcm sr).nsteps
      = 0 + (framesOf (paddedStream pcm sr)).length := h
    _ = min ((paddedStream pcm sr).length / 1920) 2500 := by
        simp only [Nat.zero_add, framesOf, List.length_map, List.length_range,
          maxSteps]

/-- Claim C2: with acoustic delay 2, the delayed audio-token query yields
nothing while at most 2 sub-steps have executed, a run whose total sub-step
count is at most 2 appends no decoded PCM chunk, and the total number of
appended chunks never exceeds the total number of executed sub-steps minus
the delay. -/
theorem C2_delay_correctness {σm σl : Type} (E : GenEnv σm σl) (seed : ℕ)
    (alphaReq : Option ℚ) (pcm : List ℚ) (sr : ℕ) :
    (runGen E seed alphaReq pcm sr).outPcms.length ≤
      (runGen E seed alphaReq pcm sr).substeps - acousticDelay ∧
    ((runGen E seed alphaReq pcm sr).substeps ≤ acousticDelay →
      (runGen E seed alphaReq pcm sr).outPcms = []) ∧
    ∀ s : MState σl, s.gen.length ≤ acousticDelay → lastAudioTokens s = none := by
  have hinv := foldlInvariant
    (fun a : Acc σm σl => a.out_pcms.length ≤ a.st.gen.length - acousticDelay)
    (processFrame E (conditionsOf E.condition_provider alphaReq))
    (fun a b hp => processFrame_chunkInv E _ a b hp)
    (framesOf (paddedStream pcm sr))
    ⟨E.mimi0, ⟨E.initLm seed (effectiveCfgAlpha alphaReq), []⟩,
      E.text_start_token, [], [], [], 0⟩
    (Nat.zero_le _)
  refine ⟨hinv, fun hle => ?_, fun s hs => lastAudioTokens_none s hs⟩
  have ha : (runGen E seed alphaReq pcm sr).outPcms.length ≤
      (runGen E seed alphaReq pcm sr).substeps - 2 := hinv
  have hle2 : (runGen E seed alphaReq pcm sr).substeps ≤ 2 := hle
  have hz : (runGen E seed alphaReq pcm sr).outPcms.length = 0 := by omega
  exact List.length_eq_zero.mp hz

/-- Claim C10: when a run accumulates no decoded PCM chunk, the final
concatenation fails (candle rejects an empty concat), the run returns an
error, and no wav output is written. -/
theorem C10_empty_concat {σm σl : Type} (E : GenEnv σm σl) (seed : ℕ)
    (alphaReq : Option ℚ) (pcm : List ℚ) (sr : ℕ)
    (h : (runGen E seed alphaReq pcm sr).outPcms = []) :
    isOkE (runGen E seed alphaReq pcm sr).result = false ∧
    (runGen E seed alphaReq pcm sr).wavWritten = false ∧
    ∀ s, (runGen E seed alphaReq pcm sr).transcript = some s →
      (runGen E seed alphaReq pcm sr).result =
        Except.error "cannot concat empty slice" := by
  have hres0 : (runGen E seed alphaReq pcm sr).result =
      finalResult E.dp (runGen E seed alphaReq pcm sr).textTokens
        (runGen E seed alphaReq pcm sr).outPcms := rfl
  have hres : (runGen E seed alphaReq pcm sr).result =
      finalResult E.dp (runGen E seed alphaReq pcm sr).textTokens [] := by
    rw [hres0, h]
  have base := finalResult_nil E.dp (runGen E seed alphaReq pcm sr).textTokens
  refine ⟨?_, ?_, fun s hs => ?_⟩
  · rw [hres]
    exact base.1
  · show isOkE (runGen E seed alphaReq pcm sr).result = false
    rw [hres]
    exact base.1
  · rw [hres]
    exact base.2 s hs

/-! ## A concrete environment for witnesses -/

/-- A concrete collaborator environment whose codec never emits a code
frame. -/
def envA : GenEnv Unit Unit :=
  { encode_step := fun s _ => (s, none)
    decode_step := fun s _ => (s, some [0])
    initLm := fun _ _ => ()
    lmStep := fun s _ _ _ => (s, 5, [1, 1, 1, 1, 1, 1, 1, 1])
    dp := fun l => some l
    condition_provider := none
    mimi0 := ()
    text_start_token := 48000
    gac := 8 }

/-- Under envA the codec emits no code frame, so no sub-step executes and no
chunk is appended. -/
theorem envA_run_nil (seed : ℕ) (alphaReq : Option ℚ) (pcm : List ℚ) (sr : ℕ) :
    (runGen envA seed alphaReq pcm sr).substeps = 0 ∧
    (runGen envA seed alphaReq pcm sr).outPcms = [] := by
  have h := foldlInvariant
    (fun a : Acc Unit Unit => a.st.gen = [] ∧ a.out_pcms = [])
    (processFrame envA (conditionsOf envA.condition_provider alphaReq))
    (fun a b hp => hp)
    (framesOf (paddedStream pcm sr))
    ⟨envA.mimi0, ⟨envA.initLm seed (effectiveCfgAlpha alphaReq), []⟩,
      envA.text_start_token, [], [], [], 0⟩
    ⟨rfl, rfl⟩
  constructor
  · show ((framesOf (paddedStream pcm sr)).foldl
      (processFrame envA (conditionsOf envA.condition_provider alphaReq))
      ⟨envA.mimi0, ⟨envA.initLm seed (effectiveCfgAlpha alphaReq), []⟩,
        envA.text_start_token, [], [], [], 0⟩).st.gen.length = 0
    rw [h.1]
    rfl
  · exact h.2

/-- Witness for C1 at the concrete environment envA, seed 42, no cfg alpha
and an empty input. -/
theorem C1_determinism_witness :
    (runGen envA 42 none [] 24000).textTokens =
      (runGen envA 42 none [] 24000).textTokens ∧
    (runGen envA 42 none [] 24000).printed =
      (runGen envA 42 none [] 24000).printed ∧
    (runGen envA 42 none [] 24000).transcript =
      (runGen envA 42 none [] 24000).transcript ∧
    (runGen envA 42 none [] 24000).outPcms =
      (runGen envA 42 none [] 24000).outPcms ∧
    (runGen envA 42 none [] 24000).result =
      (runGen envA 42 none [] 24000).result :=
  C1_determinism envA 42 none [] 24000 (runGen envA 42 none [] 24000)
    (runGen envA 42 none [] 24000) rfl rfl

/-- Witness for C2 at the concrete environment envA: a run with at most two
sub-steps appends no chunk, and a state with at most two generated vectors
answers the delayed query with nothing. -/
theorem C2_delay_correctness_witness :
    (runGen envA 0 none [] 24000).outPcms = [] ∧
    lastAudioTokens (⟨(), []⟩ : MState Unit) = none :=
  ⟨(C2_delay_correctness envA 0 none [] 24000).2.1
      (by rw [(envA_run_nil 0 none [] 24000).1]; exact Nat.zero_le _),
   (C2_delay_correctness envA 0 none [] 24000).2.2 ⟨(), []⟩ (by decide)⟩

/-- Witness for C10 at the concrete environment envA: the chunk list ends
empty, the run tail errors and no wav output is written. -/
theorem C10_empty_concat_witness :
    isOkE (runGen envA 3 none [] 24000).result = false ∧
    (runGen envA 3 none [] 24000).wavWritten = false :=
  ⟨(C10_empty_concat envA 3 none [] 24000 (envA_run_nil 3 none [] 24000).2).1,
   (C10_empty_concat envA 3 none [] 24000 (envA_run_nil 3 none [] 24000).2).2.1⟩

end Hibiki
